import Mathlib

/-
Verification of the comparison-grid compositor of the blender_studio
repository (src/render_scripts/compose_comparison.py) against its
natural-language specification.

The Python functions are shallowly embedded as executable Lean
definitions.  Rasters are RGBA pixel grids; 8-bit channels are held as
naturals.  Python `int()` on a nonnegative float truncates toward zero,
which in exact arithmetic is the floor, embedded as natural division;
all per-pixel arithmetic is embedded exactly (rationals/naturals), the
standard shallow-embedding convention for IEEE float expressions whose
claims are about the exact values.
-/

namespace BlenderStudio

/-- RGBA pixel; the four 8-bit channels are held as naturals. -/
structure RGBA where
  r : Nat
  g : Nat
  b : Nat
  a : Nat
deriving DecidableEq

/-- An RGBA raster: dimensions plus a total pixel lookup.  Positions
outside the raster read as transparent black, matching the background
of a freshly created PIL image. -/
structure Image where
  width : Nat
  height : Nat
  pixel : Nat → Nat → RGBA

/-- Distance to the nearest edge as computed in blur_edges:
min(dist_left, dist_right, dist_top, dist_bottom)
= min(x, width - 1 - x, y, height - 1 - y), associated left to right
as Python's variadic min does. -/
def minEdgeDist (width height x y : Nat) : Nat :=
  min (min (min x (width - 1 - x)) y) (height - 1 - y)

/-- blur_edges from compose_comparison.py.  A fresh canvas is created
as transparent black; for every in-range pixel, if the minimum edge
distance d is below blur_size the alpha becomes
int(a * (d / blur_size) ** 2), i.e. the floor of a·d²/blur_size²
(Python int() truncates toward zero, and the value is nonnegative);
otherwise the pixel is copied unchanged.  blur_size is an integer with
no sign restriction, exactly as in the source. -/
def blur_edges (img : Image) (blur_size : Int) : Image where
  width := img.width
  height := img.height
  pixel := fun x y =>
    if x < img.width ∧ y < img.height then
      let d := minEdgeDist img.width img.height x y
      if (d : Int) < blur_size then
        let p := img.pixel x y
        ⟨p.r, p.g, p.b, p.a * d * d / (blur_size.toNat * blur_size.toNat)⟩
      else
        img.pixel x y
    else ⟨0, 0, 0, 0⟩

/-- A solid-colour raster used as a concrete test input. -/
def constImage (w h : Nat) (p : RGBA) : Image where
  width := w
  height := h
  pixel := fun x y => if x < w ∧ y < h then p else ⟨0, 0, 0, 0⟩

/-- Rounding of the rational num/den to the nearest integer (halves
round up); this is what the claim's "rounded to the nearest integer"
reading demands of the faded alpha value. -/
def roundNearestDiv (num den : Nat) : Nat :=
  (2 * num + den) / (2 * den)

/-- C1, counterexample.  The claim says the faded alpha equals the
input alpha times (d/b)² rounded to the NEAREST integer.  At a 7×7
all-opaque image with band b = 2, the pixel (1,3) has d = 1, so the
exact value is 255·(1/2)² = 63.75; rounding to nearest gives 64, but
the code truncates (Python int()) and stores 63. -/
theorem blur_edges_round_to_nearest_false :
    ((blur_edges (constImage 7 7 ⟨10, 20, 30, 255⟩) 2).pixel 1 3).a ≠
      roundNearestDiv (255 * minEdgeDist 7 7 1 3 ^ 2) (2 ^ 2) := by
  decide

/-- C1, amended.  For every RGBA image and band width b > 0, at each
in-range pixel whose edge distance d satisfies d < b, the output alpha
is the input alpha multiplied by (d/b)², truncated toward zero
(floored) to an integer, with the RGB channels unchanged. -/
theorem blur_edges_alpha_floor (img : Image) (b : Int) (x y : Nat)
    (hx : x < img.width) (hy : y < img.height) (hb : 0 < b)
    (hd : (minEdgeDist img.width img.height x y : Int) < b) :
    (blur_edges img b).pixel x y =
      ⟨(img.pixel x y).r, (img.pixel x y).g, (img.pixel x y).b,
        Nat.floor ((((img.pixel x y).a * minEdgeDist img.width img.height x y ^ 2 : ℕ) : ℚ) /
          (((b.toNat * b.toNat : ℕ) : ℚ)))⟩ := by
  simp only [blur_edges]
  rw [if_pos (And.intro hx hy), if_pos hd]
  have hfloor :
      Nat.floor ((((img.pixel x y).a * minEdgeDist img.width img.height x y ^ 2 : ℕ) : ℚ) /
          (((b.toNat * b.toNat : ℕ) : ℚ))) =
        ((img.pixel x y).a * minEdgeDist img.width img.height x y ^ 2) /
          (b.toNat * b.toNat) := by
    rw [Nat.floor_div_nat, Nat.floor_natCast]
  rw [hfloor]
  have harith :
      (img.pixel x y).a * minEdgeDist img.width img.height x y *
          minEdgeDist img.width img.height x y =
        (img.pixel x y).a * minEdgeDist img.width img.height x y ^ 2 := by
    ring
  rw [harith]

/-- A concrete 7×7 opaque test raster. -/
def imgSeven : Image := constImage 7 7 ⟨10, 20, 30, 255⟩

/-- C1 witness: the amended statement instantiated at the 7×7 image,
band 2, pixel (1,3). -/
theorem blur_edges_alpha_floor_witness :
    ((1 < imgSeven.width ∧ 3 < imgSeven.height) ∧
      (0 : Int) < 2 ∧
        (minEdgeDist imgSeven.width imgSeven.height 1 3 : Int) < 2) ∧
    (blur_edges imgSeven 2).pixel 1 3 =
      ⟨(imgSeven.pixel 1 3).r, (imgSeven.pixel 1 3).g, (imgSeven.pixel 1 3).b,
        Nat.floor ((((imgSeven.pixel 1 3).a *
            minEdgeDist imgSeven.width imgSeven.height 1 3 ^ 2 : ℕ) : ℚ) /
          ((((2 : Int).toNat * (2 : Int).toNat : ℕ) : ℚ)))⟩ :=
  ⟨⟨⟨by decide, by decide⟩, by decide, by decide⟩,
    blur_edges_alpha_floor imgSeven 2 1 3
      (by decide) (by decide) (by decide) (by decide)⟩

/-- C2.  For every RGBA image and band width b > 0, every in-range
pixel whose edge distance satisfies d ≥ b is copied to the output
completely unchanged (all four channels equal the input's). -/
theorem blur_edges_keeps_far_pixels (img : Image) (b : Int) (x y : Nat)
    (hx : x < img.width) (hy : y < img.height) (hb : 0 < b)
    (hd : b ≤ (minEdgeDist img.width img.height x y : Int)) :
    (blur_edges img b).pixel x y = img.pixel x y := by
  simp only [blur_edges]
  rw [if_pos (And.intro hx hy), if_neg (not_lt.mpr hd)]

/-- C2 witness: band 3 at the centre pixel of a 9×9 image, where
d = 4 ≥ 3. -/
theorem blur_edges_keeps_far_pixels_witness :
    ((4 < (constImage 9 9 ⟨1, 2, 3, 200⟩).width ∧
        4 < (constImage 9 9 ⟨1, 2, 3, 200⟩).height) ∧
      (0 : Int) < 3 ∧
        (3 : Int) ≤ (minEdgeDist (constImage 9 9 ⟨1, 2, 3, 200⟩).width
          (constImage 9 9 ⟨1, 2, 3, 200⟩).height 4 4 : Int)) ∧
    (blur_edges (constImage 9 9 ⟨1, 2, 3, 200⟩) 3).pixel 4 4 =
      (constImage 9 9 ⟨1, 2, 3, 200⟩).pixel 4 4 :=
  ⟨⟨⟨by decide, by decide⟩, by decide, by decide⟩,
    blur_edges_keeps_far_pixels (constImage 9 9 ⟨1, 2, 3, 200⟩) 3 4 4
      (by decide) (by decide) (by decide) (by decide)⟩

/-- C7, counterexample.  The claim says blur_edges rejects a
non-positive band width (b ≤ 0 is an error).  In the source there is no
such guard: with b = 0 the fade branch `min_dist < blur_size` is never
taken, so the call succeeds and returns an image with every pixel
unchanged — there is no rejection. -/
theorem blur_edges_accepts_zero_band :
    (blur_edges (constImage 5 5 ⟨1, 2, 3, 200⟩) 0).width = 5 ∧
    (blur_edges (constImage 5 5 ⟨1, 2, 3, 200⟩) 0).height = 5 ∧
    (∀ x < 5, ∀ y < 5,
      (blur_edges (constImage 5 5 ⟨1, 2, 3, 200⟩) 0).pixel x y =
        (constImage 5 5 ⟨1, 2, 3, 200⟩).pixel x y) := by
  refine ⟨rfl, rfl, ?_⟩
  decide

/-- C7, amended.  blur_edges accepts every band width: for b ≤ 0 it
returns an image of the same dimensions with every in-range pixel
copied unchanged, and it succeeds (is a total function) for every image
and every b — there are no failure modes at all. -/
theorem blur_edges_nonpositive_band_noop (img : Image) (b : Int) (hb : b ≤ 0)
    (x y : Nat) (hx : x < img.width) (hy : y < img.height) :
    (blur_edges img b).width = img.width ∧
    (blur_edges img b).height = img.height ∧
    (blur_edges img b).pixel x y = img.pixel x y := by
  refine ⟨rfl, rfl, ?_⟩
  simp only [blur_edges]
  rw [if_pos (And.intro hx hy), if_neg]
  intro hlt
  have hnonneg : (0 : Int) ≤ (minEdgeDist img.width img.height x y : Int) :=
    Int.ofNat_nonneg _
  omega

/-- C7 witness: the amended statement instantiated at a 5×5 image with
band width 0 at pixel (2,2). -/
theorem blur_edges_nonpositive_band_noop_witness :
    ((0 : Int) ≤ 0 ∧ 2 < (constImage 5 5 ⟨9, 9, 9, 100⟩).width ∧
      2 < (constImage 5 5 ⟨9, 9, 9, 100⟩).height) ∧
    (blur_edges (constImage 5 5 ⟨9, 9, 9, 100⟩) 0).width =
        (constImage 5 5 ⟨9, 9, 9, 100⟩).width ∧
    (blur_edges (constImage 5 5 ⟨9, 9, 9, 100⟩) 0).height =
        (constImage 5 5 ⟨9, 9, 9, 100⟩).height ∧
    (blur_edges (constImage 5 5 ⟨9, 9, 9, 100⟩) 0).pixel 2 2 =
        (constImage 5 5 ⟨9, 9, 9, 100⟩).pixel 2 2 :=
  ⟨⟨by decide, by decide, by decide⟩,
    blur_edges_nonpositive_band_noop (constImage 5 5 ⟨9, 9, 9, 100⟩) 0
      (by decide) 2 2 (by decide) (by decide)⟩

/-- C9.  For every image and positive band width, blur_edges never
increases opacity: at every in-range pixel the output alpha is at most
the input alpha, the RGB channels are preserved, and the output has the
input's dimensions. -/
theorem blur_edges_never_increases_alpha (img : Image) (b : Int) (hb : 0 < b)
    (x y : Nat) (hx : x < img.width) (hy : y < img.height) :
    (blur_edges img b).width = img.width ∧
    (blur_edges img b).height = img.height ∧
    ((blur_edges img b).pixel x y).a ≤ (img.pixel x y).a ∧
    ((blur_edges img b).pixel x y).r = (img.pixel x y).r ∧
    ((blur_edges img b).pixel x y).g = (img.pixel x y).g ∧
    ((blur_edges img b).pixel x y).b = (img.pixel x y).b := by
  refine ⟨rfl, rfl, ?_⟩
  simp only [blur_edges]
  rw [if_pos (And.intro hx hy)]
  by_cases hd : ((minEdgeDist img.width img.height x y : Nat) : Int) < b
  · rw [if_pos hd]
    refine ⟨?_, rfl, rfl, rfl⟩
    have hdb : minEdgeDist img.width img.height x y < b.toNat := by omega
    have hbpos : 0 < b.toNat * b.toNat := by
      have : 0 < b.toNat := by omega
      exact Nat.mul_pos this this
    have hmul : (img.pixel x y).a * minEdgeDist img.width img.height x y *
        minEdgeDist img.width img.height x y ≤
        (img.pixel x y).a * (b.toNat * b.toNat) := by
      have h1 : minEdgeDist img.width img.height x y *
          minEdgeDist img.width img.height x y ≤ b.toNat * b.toNat :=
        Nat.mul_le_mul (Nat.le_of_lt hdb) (Nat.le_of_lt hdb)
      calc (img.pixel x y).a * minEdgeDist img.width img.height x y *
            minEdgeDist img.width img.height x y
          = (img.pixel x y).a * (minEdgeDist img.width img.height x y *
            minEdgeDist img.width img.height x y) := by ring
        _ ≤ (img.pixel x y).a * (b.toNat * b.toNat) :=
            Nat.mul_le_mul_left _ h1
    calc (img.pixel x y).a * minEdgeDist img.width img.height x y *
          minEdgeDist img.width img.height x y / (b.toNat * b.toNat)
        ≤ (img.pixel x y).a * (b.toNat * b.toNat) / (b.toNat * b.toNat) :=
          Nat.div_le_div_right hmul
      _ = (img.pixel x y).a := Nat.mul_div_cancel _ hbpos
  · rw [if_neg hd]
    exact ⟨le_refl _, rfl, rfl, rfl⟩

/-- C9 witness: band 20 (the source's default) on a 6×6 image at pixel
(1,1). -/
theorem blur_edges_never_increases_alpha_witness :
    ((0 : Int) < 20 ∧ 1 < (constImage 6 6 ⟨7, 8, 9, 250⟩).width ∧
      1 < (constImage 6 6 ⟨7, 8, 9, 250⟩).height) ∧
    (blur_edges (constImage 6 6 ⟨7, 8, 9, 250⟩) 20).width =
        (constImage 6 6 ⟨7, 8, 9, 250⟩).width ∧
    (blur_edges (constImage 6 6 ⟨7, 8, 9, 250⟩) 20).height =
        (constImage 6 6 ⟨7, 8, 9, 250⟩).height ∧
    ((blur_edges (constImage 6 6 ⟨7, 8, 9, 250⟩) 20).pixel 1 1).a ≤
        ((constImage 6 6 ⟨7, 8, 9, 250⟩).pixel 1 1).a ∧
    ((blur_edges (constImage 6 6 ⟨7, 8, 9, 250⟩) 20).pixel 1 1).r =
        ((constImage 6 6 ⟨7, 8, 9, 250⟩).pixel 1 1).r ∧
    ((blur_edges (constImage 6 6 ⟨7, 8, 9, 250⟩) 20).pixel 1 1).g =
        ((constImage 6 6 ⟨7, 8, 9, 250⟩).pixel 1 1).g ∧
    ((blur_edges (constImage 6 6 ⟨7, 8, 9, 250⟩) 20).pixel 1 1).b =
        ((constImage 6 6 ⟨7, 8, 9, 250⟩).pixel 1 1).b :=
  ⟨⟨by decide, by decide, by decide⟩,
    blur_edges_never_increases_alpha (constImage 6 6 ⟨7, 8, 9, 250⟩) 20
      (by decide) 1 1 (by decide) (by decide)⟩

/-- Per-iteration rectangle alpha in add_soft_shadow:
int(shadow_opacity * (1 - i / steps) ** 2) with steps = 2 * shadow_size,
embedded exactly as o·(steps - i)² / steps² with floor division. -/
def shadowRectAlpha (shadow_opacity shadow_size i : Nat) : Nat :=
  shadow_opacity * (2 * shadow_size - i) ^ 2 / (2 * shadow_size) ^ 2

/-- Per-iteration inward bbox offset in add_soft_shadow:
int(shadow_size * (i / steps)) with steps = 2 * shadow_size, embedded
exactly with floor division. -/
def shadowRectOffset (shadow_size i : Nat) : Nat :=
  shadow_size * i / (2 * shadow_size)

/-- One iteration of the add_soft_shadow loop, restricted to a
horizontal row through the vertical middle of the padded canvas of an
image of width w (the padded canvas is w + 2·shadow_size wide; since
shadow_padding = shadow_size, iteration i fills the bbox
[offset, offset, w + 2s − offset, h + 2s − offset]).  On that row the
radius-5 rounded corners are outside the sampled span, so
rounded_rectangle covers exactly offset ≤ x ≤ w + 2s − offset.  The
default ImageDraw on an RGBA canvas writes the fill value directly
(no alpha compositing), so a covered pixel's alpha is REPLACED by the
rectangle's alpha; rectangles with alpha 0 are skipped, as in the
source's `if alpha > 0`. -/
def shadowRowStep (w s o : Nat) (row : Nat → Nat) (i : Nat) : Nat → Nat :=
  let alpha := shadowRectAlpha o s i
  let off := shadowRectOffset s i
  if 0 < alpha then
    fun x => if off ≤ x ∧ x ≤ w + 2 * s - off then alpha else row x
  else row

/-- The row state after the first n iterations of the add_soft_shadow
loop (for i in range(steps)), starting from the fully transparent
canvas. -/
def shadowRowLoop (w s o : Nat) : Nat → Nat → Nat
  | 0 => fun _ => 0
  | n + 1 => shadowRowStep w s o (shadowRowLoop w s o n) n

/-- The final alpha of the add_soft_shadow halo along the mid-height
row, before the original image is pasted over the centre; position
x = 0 is the outer edge of the padded canvas and x = shadow_size is the
pasted image's left boundary. -/
def shadowRow (w s o : Nat) : Nat → Nat :=
  shadowRowLoop w s o (2 * s)

/-- The rectangle alphas are antitone in the iteration index: later
(smaller, more inward) rectangles are more transparent. -/
lemma shadowRectAlpha_antitone (o s : Nat) {i j : Nat} (hij : i ≤ j) :
    shadowRectAlpha o s j ≤ shadowRectAlpha o s i := by
  unfold shadowRectAlpha
  exact Nat.div_le_div_right
    (Nat.mul_le_mul_left _ (Nat.pow_le_pow_left (Nat.sub_le_sub_left hij _) 2))

/-- The first rectangle is drawn at the full base opacity. -/
lemma shadowRectAlpha_zero (o s : Nat) (hs : 0 < s) :
    shadowRectAlpha o s 0 = o := by
  unfold shadowRectAlpha
  rw [Nat.sub_zero]
  exact Nat.mul_div_cancel o (Nat.pos_pow_of_pos 2 (by omega))

/-- Every iteration's bbox offset stays strictly inside the padding
band. -/
lemma shadowRectOffset_lt (s i : Nat) (hs : 0 < s) (hi : i < 2 * s) :
    shadowRectOffset s i < s := by
  unfold shadowRectOffset
  rw [Nat.div_lt_iff_lt_mul (by omega)]
  have h1 : s * i < s * (2 * s) := by
    exact Nat.mul_lt_mul_of_le_of_lt (le_refl s) hi hs
  omega

/-- After iteration 0 every position in the left padding band holds the
base opacity. -/
lemma shadowRowLoop_one (w s o : Nat) (hs : 0 < s) (ho : 0 < o)
    (x : Nat) (hx : x < s) :
    shadowRowLoop w s o 1 x = o := by
  have h0 : shadowRectAlpha o s 0 = o := shadowRectAlpha_zero o s hs
  have hoff : shadowRectOffset s 0 = 0 := by
    simp [shadowRectOffset]
  show shadowRowStep w s o (shadowRowLoop w s o 0) 0 x = o
  unfold shadowRowStep
  rw [h0, hoff]
  rw [if_pos ho, if_pos]
  constructor
  · exact Nat.zero_le x
  · omega

/-- Loop invariant for the add_soft_shadow halo: after n ≥ 1
iterations, the row alpha is non-increasing across the left padding
band (positions 0 .. s − 1, outer edge inward), and every band position
still holds at least the alpha of the next rectangle to be drawn. -/
lemma shadowRowLoop_invariant (w s o : Nat) (hs : 0 < s) (ho : 0 < o) :
    ∀ n, 1 ≤ n → n ≤ 2 * s →
      ((∀ x y, x ≤ y → y < s →
          shadowRowLoop w s o n y ≤ shadowRowLoop w s o n x) ∧
        (∀ x, x < s → shadowRectAlpha o s n ≤ shadowRowLoop w s o n x)) := by
  intro n
  induction n with
  | zero => intro h; omega
  | succ m ih =>
    intro _ hle
    by_cases hm : m = 0
    · subst hm
      constructor
      · intro x y hxy hys
        rw [shadowRowLoop_one w s o hs ho y hys,
          shadowRowLoop_one w s o hs ho x (lt_of_le_of_lt hxy hys)]
      · intro x hx
        rw [shadowRowLoop_one w s o hs ho x hx]
        calc shadowRectAlpha o s 1 ≤ shadowRectAlpha o s 0 :=
              shadowRectAlpha_antitone o s (by omega)
          _ = o := shadowRectAlpha_zero o s hs
    · have hm1 : 1 ≤ m := by omega
      have hm2s : m < 2 * s := by omega
      obtain ⟨mono, lb⟩ := ih hm1 (by omega)
      have hstep : shadowRowLoop w s o (m + 1) =
          shadowRowStep w s o (shadowRowLoop w s o m) m := rfl
      by_cases halpha : 0 < shadowRectAlpha o s m
      · have hoff : shadowRectOffset s m < s := shadowRectOffset_lt s m hs hm2s
        have hcov : ∀ x, x < s →
            shadowRowLoop w s o (m + 1) x =
              if shadowRectOffset s m ≤ x then shadowRectAlpha o s m
              else shadowRowLoop w s o m x := by
          intro x hx
          rw [hstep]
          unfold shadowRowStep
          rw [if_pos halpha]
          by_cases hox : shadowRectOffset s m ≤ x
          · rw [if_pos hox, if_pos ⟨hox, by omega⟩]
          · rw [if_neg hox, if_neg]
            intro hcon
            exact hox hcon.1
        constructor
        · intro x y hxy hys
          have hxs : x < s := lt_of_le_of_lt hxy hys
          rw [hcov x hxs, hcov y hys]
          by_cases hox : shadowRectOffset s m ≤ x
          · rw [if_pos hox, if_pos (le_trans hox hxy)]
          · rw [if_neg hox]
            by_cases hoy : shadowRectOffset s m ≤ y
            · rw [if_pos hoy]
              exact lb x hxs
            · rw [if_neg hoy]
              exact mono x y hxy hys
        · intro x hx
          rw [hcov x hx]
          by_cases hox : shadowRectOffset s m ≤ x
          · rw [if_pos hox]
            exact shadowRectAlpha_antitone o s (by omega)
          · rw [if_neg hox]
            exact le_trans (shadowRectAlpha_antitone o s (by omega)) (lb x hx)
      · have hsame : shadowRowLoop w s o (m + 1) = shadowRowLoop w s o m := by
          rw [hstep]
          unfold shadowRowStep
          rw [if_neg halpha]
        rw [hsame]
        constructor
        · exact mono
        · intro x hx
          have : shadowRectAlpha o s (m + 1) ≤ shadowRectAlpha o s m :=
            shadowRectAlpha_antitone o s (by omega)
          omega

/-- C3, counterexample.  The claim says the halo alpha is
non-decreasing along a ray from the outer edge of the padded canvas
toward the pasted image (maximum nearest the image, zero at the outer
edge).  At the source's defaults (shadow_size 15, shadow_opacity 20, a
100-pixel-wide image), the sampled alpha is 18 at the outer edge and
drops to 16 one pixel inward: the alpha strictly DECREASES toward the
image, because the largest rectangle is also the most opaque and every
later, smaller, more transparent rectangle overwrites the pixels it
covers. -/
theorem shadow_halo_alpha_not_nondecreasing :
    shadowRow 100 15 20 1 < shadowRow 100 15 20 0 := by decide

/-- C3, amended.  For every input image width, shadow size s > 0 and
base opacity o > 0, the halo produced by add_soft_shadow, sampled along
a ray from the outer edge of the padded canvas toward the pasted
image's boundary, has non-INCREASING alpha: shadow opacity is maximum
at the outer edge and fades toward the image (the rectangles are drawn
largest-and-most-opaque first, and each later, smaller, more
transparent rectangle overwrites the pixels it covers). -/
theorem shadow_halo_alpha_nonincreasing (w s o k1 k2 : Nat)
    (hs : 0 < s) (ho : 0 < o) (hk : k1 ≤ k2) (hk2 : k2 < s) :
    shadowRow w s o k2 ≤ shadowRow w s o k1 := by
  have h := (shadowRowLoop_invariant w s o hs ho (2 * s) (by omega) le_rfl).1
  exact h k1 k2 hk hk2

/-- C3 witness: the amended statement at the source defaults
(shadow_size 15, shadow_opacity 20), sampling positions 0 and 1. -/
theorem shadow_halo_alpha_nonincreasing_witness :
    (0 < 15 ∧ 0 < 20 ∧ 0 ≤ 1 ∧ 1 < 15) ∧
    shadowRow 100 15 20 1 ≤ shadowRow 100 15 20 0 :=
  ⟨⟨by decide, by decide, by decide, by decide⟩,
    shadow_halo_alpha_nonincreasing 100 15 20 0 1
      (by decide) (by decide) (by decide) (by decide)⟩

/-- An entry of a directory listing: its file name (as the sequence of
its characters) and whether it is a regular file, the two facts
find_image_for_part inspects. -/
structure DirEntry where
  name : List Char
  isFile : Bool
deriving DecidableEq

/-- find_image_for_part from compose_comparison.py.  The directory is
none when it does not exist on disk, otherwise the list of its entries
in iteration order; the function returns the first regular file whose
name starts with the part id (Python str.startswith, i.e. the id's
character sequence is a prefix of the name's), and none when the
directory is missing or no entry qualifies — it never raises. -/
def find_image_for_part (part_id : List Char)
    (directory : Option (List DirEntry)) : Option DirEntry :=
  match directory with
  | none => none
  | some entries =>
      entries.find? (fun f => f.isFile && part_id.isPrefixOf f.name)

/-- The six (method, tier) image slots of one composition. -/
inductive ImgKey
  | partfield_T0
  | partfield_T1
  | partfield_T2
  | ours_T0
  | ours_T1
  | ours_T2
deriving DecidableEq, Fintype

/-- Width reserved for the row labels on the left (source line 178). -/
def label_width : Nat := 100

/-- How much labels may overlay image borders (source line 179). -/
def label_overlay : Nat := 20

/-- Extra padding from the left edge (source line 180). -/
def left_padding : Nat := 20

/-- Left x origin of column 0: left_padding + label_width (source line
223). -/
def base_x : Nat := left_padding + label_width

/-- int(n * fraction) for the overlap fraction num/den: exact floor of
n·num/den, embedded as natural division. -/
def overlapAmount (n num den : Nat) : Nat := n * num / den

/-- Numerator of the source's fixed 15% overlap fraction. -/
def overlapNum : Nat := 15

/-- Denominator of the source's fixed 15% overlap fraction. -/
def overlapDen : Nat := 100

/-- Horizontal origin of the cell in column col (source lines 238-242):
base_x for column 0, else base_x + col·(img_width − h_overlap). -/
def cellX (img_width h_overlap col : Nat) : Nat :=
  if col = 0 then base_x else base_x + col * (img_width - h_overlap)

/-- Vertical origin of the cell in row r (source lines 244-248): 0 for
row 0, else img_height − v_overlap. -/
def cellY (img_height v_overlap row : Nat) : Nat :=
  if row = 0 then 0 else img_height - v_overlap

/-- Total width of the three overlapping columns (source line 188). -/
def totalWidth (img_width h_overlap : Nat) : Nat :=
  img_width + (img_width - h_overlap) * 2

/-- Total height of the two overlapping rows (source line 190). -/
def totalHeight (img_height v_overlap : Nat) : Nat :=
  img_height + (img_height - v_overlap)

/-- Canvas width (source line 192). -/
def compositeWidth (img_width h_overlap : Nat) : Nat :=
  left_padding + label_width + totalWidth img_width h_overlap

/-- Canvas height (source line 193). -/
def compositeHeight (img_height v_overlap : Nat) : Nat :=
  totalHeight img_height v_overlap

/-- An RGB pixel (no alpha channel). -/
structure RGBPix where
  r : Nat
  g : Nat
  b : Nat
deriving DecidableEq

/-- An RGB raster (no alpha channel), the mode of the persisted
composite. -/
structure RGBImage where
  width : Nat
  height : Nat
  pixel : Nat → Nat → RGBPix

/-- PIL convert("RGB") on an RGBA raster: the alpha channel is dropped
and the RGB values kept. -/
def convertRGB (img : Image) : RGBImage where
  width := img.width
  height := img.height
  pixel := fun x y =>
    let p := img.pixel x y
    ⟨p.r, p.g, p.b⟩

/-- One channel of PIL paste with an 8-bit mask value m:
(src·m + dst·(255 − m)) / 255, the library's blend with rounding
modelled as floor division (no claim depends on the rounding mode). -/
def blendChan (dstc srcc m : Nat) : Nat :=
  (srcc * m + dstc * (255 - m)) / 255

/-- composite.paste(src, (px, py), src): alpha-composite src over dst
at origin (px, py), using src's own alpha band as the mask. -/
def pasteRGBA (dst src : Image) (px py : Nat) : Image where
  width := dst.width
  height := dst.height
  pixel := fun x y =>
    if px ≤ x ∧ x < px + src.width ∧ py ≤ y ∧ y < py + src.height then
      let sp := src.pixel (x - px) (y - py)
      let dp := dst.pixel x y
      ⟨blendChan dp.r sp.r sp.a, blendChan dp.g sp.g sp.a,
        blendChan dp.b sp.b sp.a, blendChan dp.a sp.a sp.a⟩
    else dst.pixel x y

/-- Paste order of the six cells: row-major, top row (partfield) first,
as in the source's layout list (lines 230-233). -/
def composeKeys : List (Nat × Nat × ImgKey) :=
  [(0, 0, ImgKey.partfield_T0), (0, 1, ImgKey.partfield_T1),
    (0, 2, ImgKey.partfield_T2), (1, 0, ImgKey.ours_T0),
    (1, 1, ImgKey.ours_T1), (1, 2, ImgKey.ours_T2)]

/-- Fallback raster for the total getD lookup below; never observed on
the success path, where every slot is present. -/
def defaultImage : Image := ⟨0, 0, fun _ _ => ⟨0, 0, 0, 0⟩⟩

/-- Result of a successful compose_comparison run: the dimensions used
for layout (taken from the partfield_T0 raster), the canvas size, the
per-cell origins, the flattened RGB output, and the output path. -/
structure ComposeResult where
  imgWidth : Nat
  imgHeight : Nat
  canvasWidth : Nat
  canvasHeight : Nat
  cellOrigin : Nat → Nat → Nat × Nat
  output : RGBImage
  outputPath : List String

/-- compose_comparison from compose_comparison.py, for one part id.
`found` abstracts find_image_for_part followed by Image.open and RGBA
conversion for each of the six fixed directories; the source iterates
over the six paths and returns False at the first missing one, embedded
as a single all-present test (equivalent for the result).  On success
it reads the layout dimensions from the partfield_T0 raster WITHOUT
comparing them to the other five (the source only comments "assume all
images have the same size"), fades every cell with blur_edges at band
150, pastes the cells row-major at the overlap-layout origins onto a
white canvas, flattens to RGB, and yields the output path
output_base_dir/comparisons/<part_id>.png.  Label drawing is omitted:
glyph rasterisation is font-backend-dependent (a spec non-goal) and no
claim refers to label pixels. -/
def compose_comparison (part_id : String) (found : ImgKey → Option Image)
    (output_base_dir : List String) : Option ComposeResult :=
  if h : ∀ k : ImgKey, (found k).isSome then
    let img := fun k => (found k).getD defaultImage
    let w := (img ImgKey.partfield_T0).width
    let ht := (img ImgKey.partfield_T0).height
    let faded := fun k => blur_edges (img k) 150
    let hov := overlapAmount w overlapNum overlapDen
    let vov := overlapAmount ht overlapNum overlapDen
    let cw := compositeWidth w hov
    let ch := compositeHeight ht vov
    let canvas0 : Image :=
      ⟨cw, ch, fun x y =>
        if x < cw ∧ y < ch then ⟨255, 255, 255, 255⟩ else ⟨0, 0, 0, 0⟩⟩
    let canvas := composeKeys.foldl
      (fun c rck =>
        pasteRGBA c (faded rck.2.2) (cellX w hov rck.2.1) (cellY ht vov rck.1))
      canvas0
    some
      { imgWidth := w
        imgHeight := ht
        canvasWidth := cw
        canvasHeight := ch
        cellOrigin := fun row col => (cellX w hov col, cellY ht vov row)
        output := convertRGB canvas
        outputPath := output_base_dir ++ ["comparisons", part_id ++ ".png"] }
  else none

/-- The files compose_comparison writes: none on failure, exactly the
one output path on success. -/
def composeWrites : Option ComposeResult → List (List String)
  | none => []
  | some r => [r.outputPath]

/-- Per-identifier success test of the batch driver (main): whether
compose_comparison succeeded for that id. -/
def composeOk (findFn : String → ImgKey → Option Image)
    (base : List String) (id : String) : Bool :=
  (compose_comparison id (findFn id) base).isSome

/-- One iteration of the batch driver's tally loop (main, lines
368-375): success increments the first counter, failure the second. -/
def batchStep (ok : String → Bool) (p : Nat × Nat) (id : String) : Nat × Nat :=
  if ok id then (p.1 + 1, p.2) else (p.1, p.2 + 1)

/-- The (successful, failed) tally the batch driver reports after
processing the given identifiers in order. -/
def batchCounts (ok : String → Bool) (ids : List String) : Nat × Nat :=
  ids.foldl (batchStep ok) (0, 0)

/-- A minimal filesystem: the sets of existing directories and files,
each named by its path segments. -/
structure FileSys where
  dirs : List (List String)
  files : List (List String)

/-- output_path.parent.mkdir(parents=True, exist_ok=True) followed by
composite.save(output_path): total — it succeeds whether or not the
directory or the file already exists, and an existing file at the path
is replaced. -/
def persistOutput (fs : FileSys) (path : List String) : FileSys where
  dirs := path.dropLast :: fs.dirs.filter (fun d => d ≠ path.dropLast)
  files := path :: fs.files.filter (fun f => f ≠ path)

/-- C4.  In overlap mode, with h_overlap = floor(image_width ·
overlap_fraction) and v_overlap = floor(image_height ·
overlap_fraction) for any overlap fraction num/den in (0,1), the cell
origin for column c is base_x + c·(image_width − h_overlap), the row
origins are 0 and image_height − v_overlap, the canvas width is
left_padding + label_width + image_width + 2·(image_width − h_overlap),
and the canvas height is image_height + (image_height − v_overlap). -/
theorem overlap_layout_equations (w h num den : Nat)
    (hnum : 0 < num) (hden : num < den) (hov vov : Nat)
    (hhov : hov = overlapAmount w num den)
    (hvov : vov = overlapAmount h num den) :
    hov = Nat.floor ((w : ℚ) * ((num : ℚ) / (den : ℚ))) ∧
    (∀ col, cellX w hov col = base_x + col * (w - hov)) ∧
    cellY h vov 0 = 0 ∧
    cellY h vov 1 = h - vov ∧
    compositeWidth w hov = left_padding + label_width + w + 2 * (w - hov) ∧
    compositeHeight h vov = h + (h - vov) := by
  subst hhov
  subst hvov
  refine ⟨?_, ?_, rfl, rfl, ?_, rfl⟩
  · unfold overlapAmount
    have hcast : (w : ℚ) * ((num : ℚ) / (den : ℚ)) =
        ((w * num : ℕ) : ℚ) / ((den : ℕ) : ℚ) := by
      push_cast
      ring
    rw [hcast, Nat.floor_div_nat, Nat.floor_natCast]
  · intro col
    unfold cellX
    by_cases hc : col = 0
    · subst hc
      simp
    · rw [if_neg hc]
  · unfold compositeWidth totalWidth
    omega

/-- C4 witness: the layout equations at 512×512 images with the
source's 15% overlap fraction (h_overlap = v_overlap = 76). -/
theorem overlap_layout_equations_witness :
    (0 < 15 ∧ 15 < 100 ∧ 76 = overlapAmount 512 15 100 ∧
      76 = overlapAmount 512 15 100) ∧
    (76 = Nat.floor ((512 : ℚ) * ((15 : ℚ) / (100 : ℚ))) ∧
      (∀ col, cellX 512 76 col = base_x + col * (512 - 76)) ∧
      cellY 512 76 0 = 0 ∧
      cellY 512 76 1 = 512 - 76 ∧
      compositeWidth 512 76 = left_padding + label_width + 512 + 2 * (512 - 76) ∧
      compositeHeight 512 76 = 512 + (512 - 76)) :=
  ⟨⟨by decide, by decide, by decide, by decide⟩,
    overlap_layout_equations 512 512 15 100 (by decide) (by decide) 76 76
      (by decide) (by decide)⟩

/-- A 10×10 opaque red raster. -/
def imgBig : Image := constImage 10 10 ⟨255, 0, 0, 255⟩

/-- A 7×3 opaque green raster (deliberately of different dimensions
than imgBig). -/
def imgSmall : Image := constImage 7 3 ⟨0, 255, 0, 255⟩

/-- A discovery result in which the six images do NOT share a size:
five slots are 10×10 and the ours_T2 slot is 7×3. -/
def foundMismatch : ImgKey → Option Image := fun k =>
  some (match k with
    | ImgKey.ours_T2 => imgSmall
    | _ => imgBig)

/-- C5, counterexample.  The claim says compose_comparison asserts that
all six images share width/height and treats a mismatch as a
precondition failure.  The source contains no such check (only the
comment "assume all images have the same size"): with a 7×3 image in
the ours_T2 slot and 10×10 images elsewhere, compositing still
succeeds. -/
theorem compose_accepts_dimension_mismatch :
    ((foundMismatch ImgKey.partfield_T0).getD defaultImage).width ≠
      ((foundMismatch ImgKey.ours_T2).getD defaultImage).width ∧
    (compose_comparison "p" foundMismatch []).isSome = true := by
  constructor
  · decide
  · unfold compose_comparison
    rw [dif_pos (fun k => by cases k <;> rfl)]
    rfl

/-- C5, amended.  compose_comparison performs no dimension validation:
whenever all six images are found it succeeds, reading the layout
dimensions from the partfield_T0 raster alone, whatever the sizes of
the other five. -/
theorem compose_no_dimension_validation (part_id : String)
    (found : ImgKey → Option Image) (base : List String)
    (h : ∀ k : ImgKey, (found k).isSome) (img0 : Image)
    (h0 : found ImgKey.partfield_T0 = some img0) :
    ∃ r, compose_comparison part_id found base = some r ∧
      r.imgWidth = img0.width ∧ r.imgHeight = img0.height := by
  unfold compose_comparison
  rw [dif_pos h]
  refine ⟨_, rfl, ?_, ?_⟩ <;> simp [h0]

/-- C5 witness: the amended statement at the mismatched-size discovery
result. -/
theorem compose_no_dimension_validation_witness :
    ((∀ k : ImgKey, (foundMismatch k).isSome) ∧
      foundMismatch ImgKey.partfield_T0 = some imgBig) ∧
    ∃ r, compose_comparison "p" foundMismatch [] = some r ∧
      r.imgWidth = imgBig.width ∧ r.imgHeight = imgBig.height :=
  ⟨⟨fun k => by cases k <;> rfl, rfl⟩,
    compose_no_dimension_validation "p" foundMismatch []
      (fun k => by cases k <;> rfl) imgBig rfl⟩

/-- The batch tally is the pair of counts of successful and failed
identifiers, whatever the starting accumulator. -/
lemma batchCounts_foldl (ok : String → Bool) (ids : List String) :
    ∀ p : Nat × Nat,
      ids.foldl (batchStep ok) p =
        (p.1 + ids.countP (fun i => ok i),
          p.2 + ids.countP (fun i => !ok i)) := by
  induction ids with
  | nil =>
    intro p
    simp
  | cons a l ih =>
    intro p
    rw [List.foldl_cons, ih]
    by_cases ha : ok a <;>
      simp [batchStep, ha, List.countP_cons, Prod.ext_iff] <;> omega

/-- C6.  For every identifier for which at least one of the six source
images is absent, compose_comparison returns failure (none), no output
file is written for it, and the batch driver's tally over any list of
identifiers containing it has its failure count larger by exactly one
— and its success count unchanged — relative to the same batch without
that identifier, i.e. processing continues with the remaining
identifiers. -/
theorem compose_missing_image_counted_once
    (findFn : String → ImgKey → Option Image) (base : List String)
    (part_id : String) (k : ImgKey) (hk : findFn part_id k = none)
    (l1 l2 : List String) :
    compose_comparison part_id (findFn part_id) base = none ∧
    composeWrites (compose_comparison part_id (findFn part_id) base) = [] ∧
    batchCounts (composeOk findFn base) (l1 ++ part_id :: l2) =
      ((batchCounts (composeOk findFn base) (l1 ++ l2)).1,
        (batchCounts (composeOk findFn base) (l1 ++ l2)).2 + 1) := by
  have hnone : compose_comparison part_id (findFn part_id) base = none := by
    unfold compose_comparison
    rw [dif_neg]
    intro hall
    have hkk := hall k
    rw [hk] at hkk
    exact absurd hkk (by simp)
  have hok : composeOk findFn base part_id = false := by
    unfold composeOk
    rw [hnone]
    rfl
  refine ⟨hnone, by rw [hnone]; rfl, ?_⟩
  unfold batchCounts
  rw [batchCounts_foldl, batchCounts_foldl]
  simp [List.countP_append, List.countP_cons, hok, Prod.ext_iff]
  omega

/-- A discovery function that finds nothing in any directory. -/
def findNothing : String → ImgKey → Option Image := fun _ _ => none

/-- C6 witness: identifier "00006682" with every image absent, inside
the batch ["a", "00006682", "b"]. -/
theorem compose_missing_image_counted_once_witness :
    findNothing "00006682" ImgKey.partfield_T0 = none ∧
    (compose_comparison "00006682" (findNothing "00006682") ["out"] = none ∧
      composeWrites
        (compose_comparison "00006682" (findNothing "00006682") ["out"]) = [] ∧
      batchCounts (composeOk findNothing ["out"]) (["a"] ++ "00006682" :: ["b"]) =
        ((batchCounts (composeOk findNothing ["out"]) (["a"] ++ ["b"])).1,
          (batchCounts (composeOk findNothing ["out"]) (["a"] ++ ["b"])).2 + 1)) :=
  ⟨rfl,
    compose_missing_image_counted_once findNothing ["out"] "00006682"
      ImgKey.partfield_T0 rfl ["a"] ["b"]⟩

/-- C8.  For every identifier whose composition succeeds (all six
images found), compose_comparison yields exactly one output, an RGB
raster (the alpha channel is dropped by convertRGB; the RGBImage type
has no alpha), at <output_base>/comparisons/<identifier>.png; the
persist step creates the comparisons directory and replaces any
existing file at the path, succeeding on every starting filesystem
(silent overwrite), and the call returns success. -/
theorem compose_persists_single_rgb_output (part_id : String)
    (found : ImgKey → Option Image) (base : List String)
    (h : ∀ k : ImgKey, (found k).isSome) :
    ∃ r, compose_comparison part_id found base = some r ∧
      r.outputPath = base ++ ["comparisons", part_id ++ ".png"] ∧
      r.outputPath.dropLast = base ++ ["comparisons"] ∧
      composeWrites (compose_comparison part_id found base) = [r.outputPath] ∧
      ∀ fs : FileSys,
        (persistOutput fs r.outputPath).files.count r.outputPath = 1 ∧
        r.outputPath.dropLast ∈ (persistOutput fs r.outputPath).dirs := by
  have hdrop : ∀ s : String, (base ++ ["comparisons", s]).dropLast =
      base ++ ["comparisons"] := by
    intro s
    have hsplit : base ++ ["comparisons", s] =
        (base ++ ["comparisons"]) ++ [s] := by simp
    rw [hsplit, List.dropLast_concat]
  have hcount : ∀ (fs : FileSys) (p : List String),
      (persistOutput fs p).files.count p = 1 := by
    intro fs p
    show (p :: fs.files.filter (fun f => f ≠ p)).count p = 1
    rw [List.count_cons_self]
    have hzero : (fs.files.filter (fun f => f ≠ p)).count p = 0 := by
      rw [List.count_eq_zero]
      intro hmem
      have := List.of_mem_filter hmem
      simp at this
    rw [hzero]
  unfold compose_comparison
  rw [dif_pos h]
  refine ⟨_, rfl, rfl, hdrop _, rfl, ?_⟩
  intro fs
  refine ⟨hcount fs _, ?_⟩
  exact List.mem_cons_self _ _

/-- A discovery result with all six images present. -/
def foundAll : ImgKey → Option Image := fun _ => some imgBig

/-- C8 witness: a successful composition for identifier "0001" with
output base ["out"]. -/
theorem compose_persists_single_rgb_output_witness :
    (∀ k : ImgKey, (foundAll k).isSome) ∧
    ∃ r, compose_comparison "0001" foundAll ["out"] = some r ∧
      r.outputPath = ["out"] ++ ["comparisons", "0001" ++ ".png"] ∧
      r.outputPath.dropLast = ["out"] ++ ["comparisons"] ∧
      composeWrites (compose_comparison "0001" foundAll ["out"]) =
        [r.outputPath] ∧
      ∀ fs : FileSys,
        (persistOutput fs r.outputPath).files.count r.outputPath = 1 ∧
        r.outputPath.dropLast ∈ (persistOutput fs r.outputPath).dirs :=
  ⟨fun k => rfl,
    compose_persists_single_rgb_output "0001" foundAll ["out"] (fun k => rfl)⟩

/-- C10.  find_image_for_part returns none — rather than raising —
both when the directory does not exist and when it exists but contains
no regular file whose name starts with the identifier: a missing input
directory is handled identically to a missing image file. -/
theorem find_image_missing_dir_and_no_match (part_id : List Char)
    (entries : List DirEntry)
    (h : ∀ e ∈ entries, (e.isFile && part_id.isPrefixOf e.name) = false) :
    find_image_for_part part_id none = none ∧
    find_image_for_part part_id (some entries) = none := by
  constructor
  · rfl
  · unfold find_image_for_part
    apply List.find?_eq_none.mpr
    intro x hx
    simp [h x hx]

/-- C10 witness: identifier "00006682" against a directory holding one
non-file entry that matches the prefix and one regular file that does
not. -/
theorem find_image_missing_dir_and_no_match_witness :
    (∀ e ∈ [DirEntry.mk "00006682_render.png".data false,
        DirEntry.mk "99999999_render.png".data true],
      (e.isFile && "00006682".data.isPrefixOf e.name) = false) ∧
    (find_image_for_part "00006682".data none = none ∧
      find_image_for_part "00006682".data
        (some [DirEntry.mk "00006682_render.png".data false,
          DirEntry.mk "99999999_render.png".data true]) = none) :=
  ⟨by decide,
    find_image_missing_dir_and_no_match "00006682".data
      [DirEntry.mk "00006682_render.png".data false,
        DirEntry.mk "99999999_render.png".data true] (by decide)⟩

end BlenderStudio
